import Mathlib

/-!
Verification of the authoritative dice-roll controller of the
`dicepoker_nuxt` repository, whose core lives in
`server/utils/lobbyHandler.ts`: the face resolver
(`determineDiceValue`), the settle detector and tick loop
(`serverAnimate`), and the throw-request handler (`handleLobbyEvents`,
event `throwDice`).

Modelling conventions:
* JavaScript floating-point numbers are idealised as real numbers `ℝ`,
  except in the NaN-propagation analysis at the end of the file, where a
  float is modelled as `Option ℚ` with `none` standing for `NaN`.
* The external physics engine call `world.step(...)` is abstracted as an
  arbitrary function on the five dice bodies; the wall-clock bookkeeping
  (`lastTime`, `dt`) exists only to feed that call and is absorbed into
  the abstraction.
* `Math.random()` draws are modelled as an explicit stream `r : ℕ → ℝ`
  of values in `[0, 1)`, consumed in the exact textual order of the
  source (12 draws per die).
-/

namespace DicePoker

/-- 3-component vector, mirroring `CANNON.Vec3`. -/
structure Vec3 where
  x : ℝ
  y : ℝ
  z : ℝ

/-- `CANNON.Vec3.dot`: `x*v.x + y*v.y + z*v.z`. -/
def Vec3.dot (a b : Vec3) : ℝ :=
  a.x * b.x + a.y * b.y + a.z * b.z

/-- `CANNON.Vec3.length`: `Math.sqrt(x*x + y*y + z*z)`. -/
noncomputable def Vec3.length (v : Vec3) : ℝ :=
  Real.sqrt (v.x * v.x + v.y * v.y + v.z * v.z)

/-- Negation of a vector (used to express "opposite local axis"). -/
instance : Neg Vec3 := ⟨fun v => ⟨-v.x, -v.y, -v.z⟩⟩

/-- Quaternion, mirroring `CANNON.Quaternion` with components x, y, z, w. -/
structure Quat where
  x : ℝ
  y : ℝ
  z : ℝ
  w : ℝ

/-- `CANNON.Quaternion.vmult`: rotate the vector `v` by the quaternion,
computing `q * v * conj(q)` exactly as the cannon-es source does
(intermediate quaternion `(ix, iy, iz, iw)`, then multiplication by the
conjugate `(-x, -y, -z, w)`). -/
def Quat.vmult (q : Quat) (v : Vec3) : Vec3 :=
  let ix := q.w * v.x + q.y * v.z - q.z * v.y
  let iy := q.w * v.y + q.z * v.x - q.x * v.z
  let iz := q.w * v.z + q.x * v.y - q.y * v.x
  let iw := -q.x * v.x - q.y * v.y - q.z * v.z
  { x := ix * q.w + iw * (-q.x) + iy * (-q.z) - iz * (-q.y)
    y := iy * q.w + iw * (-q.y) + iz * (-q.x) - ix * (-q.z)
    z := iz * q.w + iw * (-q.z) + ix * (-q.y) - iy * (-q.x) }

/-- Sum of squared components of a quaternion; `q` is a unit quaternion
iff `q.sumSq = 1`. -/
def Quat.sumSq (q : Quat) : ℝ :=
  q.x ^ 2 + q.y ^ 2 + q.z ^ 2 + q.w ^ 2

/-- `CANNON.Quaternion.normalize`: divide every component by the length
`sqrt(x² + y² + z² + w²)`; if the length is exactly `0` the quaternion
is set to `(0, 0, 0, 0)`. -/
noncomputable def Quat.normalize (q : Quat) : Quat :=
  let l := Real.sqrt (q.x ^ 2 + q.y ^ 2 + q.z ^ 2 + q.w ^ 2)
  if l = 0 then ⟨0, 0, 0, 0⟩
  else
    let linv := 1 / l
    ⟨q.x * linv, q.y * linv, q.z * linv, q.w * linv⟩

/-- The world "up" direction `new CANNON.Vec3(0, 1, 0)` used by
`determineDiceValue`. -/
def upVector : Vec3 := ⟨0, 1, 0⟩

/-- The face-vector table of `determineDiceValue`: the local direction
of each face, paired with the face value pinned to that axis.  Order and
values are exactly those of the source. -/
def faceVectors : List (Vec3 × ℕ) :=
  [(⟨0, 1, 0⟩, 1), (⟨0, -1, 0⟩, 6), (⟨1, 0, 0⟩, 3),
   (⟨-1, 0, 0⟩, 4), (⟨0, 0, 1⟩, 2), (⟨0, 0, -1⟩, 5)]

/-- One iteration of the loop body of `determineDiceValue`.  The state
is `(maxDot, value)`, where `maxDot = none` models the initial value
`-Infinity` (every real dot product compares `>` against it) and
`maxDot = some m` a finite maximum found so far; `p` is the pair
`(dot, val)` of the current face.  `if (dot > maxDot) { maxDot = dot;
value = val; }`. -/
noncomputable def dvStep (st : Option ℝ × ℕ) (p : ℝ × ℕ) : Option ℝ × ℕ :=
  match st.1 with
  | none => (some p.1, p.2)
  | some m => if m < p.1 then (some p.1, p.2) else st

/-- `determineDiceValue(body)` from `lobbyHandler.ts`: transform each
local face direction to world coordinates with the body's quaternion,
dot it with world-up, and keep the value of the face with the strictly
largest dot product; `maxDot` starts at `-Infinity` (modelled `none`)
and `value` starts at `0`. -/
noncomputable def determineDiceValue (q : Quat) : ℕ :=
  (faceVectors.foldl
    (fun st fv => dvStep st ((q.vmult fv.1).dot upVector, fv.2))
    (none, 0)).2

/-- The local direction of face slot `i` in the enumeration order of
`faceVectors`. -/
def faceDir : Fin 6 → Vec3
  | 0 => ⟨0, 1, 0⟩
  | 1 => ⟨0, -1, 0⟩
  | 2 => ⟨1, 0, 0⟩
  | 3 => ⟨-1, 0, 0⟩
  | 4 => ⟨0, 0, 1⟩
  | 5 => ⟨0, 0, -1⟩

/-- The face value pinned to slot `i` of `faceVectors`. -/
def faceVal : Fin 6 → ℕ
  | 0 => 1
  | 1 => 6
  | 2 => 3
  | 3 => 4
  | 4 => 2
  | 5 => 5

/-- The slot of the face opposite to slot `i` (the negated local axis). -/
def oppFace : Fin 6 → Fin 6
  | 0 => 1
  | 1 => 0
  | 2 => 3
  | 3 => 2
  | 4 => 5
  | 5 => 4

/-- Dot product of the world-space image of face direction `i` with the
world up vector: the quantity the loop of `determineDiceValue` compares. -/
def faceDot (q : Quat) (i : Fin 6) : ℝ :=
  (q.vmult (faceDir i)).dot upVector

theorem finRange_six :
    List.finRange 6 = [0, 1, 2, 3, 4, 5] := by
  decide

theorem faceVectors_eq_map :
    faceVectors = (List.finRange 6).map (fun i => (faceDir i, faceVal i)) := by
  rw [finRange_six]
  rfl

/-- The second component of one `dvStep` is either the incoming value or
the value of the current face. -/
theorem dvStep_snd (st : Option ℝ × ℕ) (p : ℝ × ℕ) :
    (dvStep st p).2 = p.2 ∨ (dvStep st p).2 = st.2 := by
  rcases st with ⟨m, v⟩
  rcases m with _ | m
  · left; rfl
  · by_cases h : m < p.1 <;> simp [dvStep, h]

/-- The value computed by folding `dvStep` is the initial value or the
value of one of the visited faces. -/
theorem dvStep_foldl_snd (l : List (ℝ × ℕ)) :
    ∀ st : Option ℝ × ℕ,
      (l.foldl dvStep st).2 = st.2 ∨ (l.foldl dvStep st).2 ∈ l.map Prod.snd := by
  induction l with
  | nil => exact fun st => Or.inl rfl
  | cons p t ih =>
      intro st
      rw [List.foldl_cons]
      rcases ih (dvStep st p) with h | h
      · rcases dvStep_snd st p with h2 | h2
        · right; rw [h, h2]; simp
        · left; rw [h, h2]
      · right; simp [h]

/-- Once `maxDot` holds a value at least as large as every remaining dot
product, the fold no longer changes state ("ties do not replace": the
comparison is strict). -/
theorem dvStep_foldl_keep (l : List (ℝ × ℕ)) :
    ∀ (m : ℝ) (v : ℕ), (∀ p ∈ l, p.1 ≤ m) →
      l.foldl dvStep (some m, v) = (some m, v) := by
  induction l with
  | nil => intro m v _; rfl
  | cons p t ih =>
      intro m v h
      rw [List.foldl_cons]
      have hp : p.1 ≤ m := h p (List.mem_cons_self _ _)
      have hstep : dvStep (some m, v) p = (some m, v) := by
        simp [dvStep, not_lt.mpr hp]
      rw [hstep]
      exact ih m v fun q hq => h q (List.mem_cons_of_mem _ hq)

/-- While every visited dot product is (strictly) below `x`, the running
`maxDot` stays `-Infinity` (`none`) or strictly below `x`. -/
theorem dvStep_foldl_below (x : ℝ) (l : List (ℝ × ℕ)) :
    ∀ st : Option ℝ × ℕ,
      (st.1 = none ∨ ∃ m, st.1 = some m ∧ m < x) →
      (∀ p ∈ l, p.1 < x) →
      ((l.foldl dvStep st).1 = none ∨
        ∃ m, (l.foldl dvStep st).1 = some m ∧ m < x) := by
  induction l with
  | nil => exact fun st h _ => h
  | cons p t ih =>
      intro st hst hl
      rw [List.foldl_cons]
      refine ih (dvStep st p) ?_ fun q hq => hl q (List.mem_cons_of_mem _ hq)
      have hp : p.1 < x := hl p (List.mem_cons_self _ _)
      rcases st with ⟨m, v⟩
      rcases hst with h | ⟨m', hm', hlt⟩
      · obtain rfl : m = none := h
        exact Or.inr ⟨p.1, rfl, hp⟩
      · obtain rfl : m = some m' := hm'
        by_cases hc : m' < p.1
        · exact Or.inr ⟨p.1, by simp [dvStep, hc], hp⟩
        · exact Or.inr ⟨m', by simp [dvStep, hc], hlt⟩

/-- A dot product always beats the initial `-Infinity`. -/
theorem dvStep_of_fst_none (st : Option ℝ × ℕ) (p : ℝ × ℕ)
    (h : st.1 = none) : dvStep st p = (some p.1, p.2) := by
  rcases st with ⟨m, v⟩
  obtain rfl : m = none := h
  rfl

/-- A dot product strictly above the current maximum replaces it. -/
theorem dvStep_of_fst_lt (st : Option ℝ × ℕ) (p : ℝ × ℕ) (m : ℝ)
    (h : st.1 = some m) (hlt : m < p.1) : dvStep st p = (some p.1, p.2) := by
  rcases st with ⟨m0, v⟩
  obtain rfl : m0 = some m := h
  simp [dvStep, hlt]

/-- First-maximum lemma for the loop of `determineDiceValue`: if every
face before the distinguished one has a strictly smaller dot product and
every face after it has a dot product not exceeding it, the fold returns
the distinguished face's value. -/
theorem dvStep_foldl_firstMax (l1 l2 : List (ℝ × ℕ)) (x : ℝ) (v : ℕ)
    (h1 : ∀ p ∈ l1, p.1 < x) (h2 : ∀ p ∈ l2, p.1 ≤ x) :
    ((l1 ++ (x, v) :: l2).foldl dvStep (none, 0)).2 = v := by
  rw [List.foldl_append, List.foldl_cons]
  have hinv := dvStep_foldl_below x l1 (none, 0) (Or.inl rfl) h1
  have hstep : dvStep (l1.foldl dvStep (none, 0)) (x, v) = (some x, v) := by
    rcases hinv with h | ⟨m, hm, hlt⟩
    · exact dvStep_of_fst_none _ _ h
    · exact dvStep_of_fst_lt _ _ m hm hlt
  rw [hstep, dvStep_foldl_keep l2 x v h2]

/-- `determineDiceValue` as a fold of `dvStep` over the explicit list of
the six dot products paired with their face values. -/
theorem dv_eq_fold_dots (q : Quat) :
    determineDiceValue q =
      (([(faceDot q 0, faceVal 0), (faceDot q 1, faceVal 1),
         (faceDot q 2, faceVal 2), (faceDot q 3, faceVal 3),
         (faceDot q 4, faceVal 4), (faceDot q 5, faceVal 5)]).foldl
        dvStep (none, 0)).2 :=
  rfl

/-- Tie-break policy of `determineDiceValue`: the value of the first
face (in `faceVectors` order) attaining the maximal dot product with
world-up is returned. -/
theorem dv_firstMax (q : Quat) (i : Fin 6)
    (hmax : ∀ j : Fin 6, faceDot q j ≤ faceDot q i)
    (hstrict : ∀ j : Fin 6, j < i → faceDot q j < faceDot q i) :
    determineDiceValue q = faceVal i := by
  fin_cases i
  · rw [dv_eq_fold_dots]
    exact dvStep_foldl_firstMax []
      [(faceDot q 1, faceVal 1), (faceDot q 2, faceVal 2),
       (faceDot q 3, faceVal 3), (faceDot q 4, faceVal 4),
       (faceDot q 5, faceVal 5)]
      (faceDot q 0) (faceVal 0)
      (by intro p hp; exact absurd hp (List.not_mem_nil p))
      (by
        intro p hp
        simp only [List.mem_cons, List.not_mem_nil, or_false] at hp
        rcases hp with rfl | rfl | rfl | rfl | rfl
        · exact hmax 1
        · exact hmax 2
        · exact hmax 3
        · exact hmax 4
        · exact hmax 5)
  · rw [dv_eq_fold_dots]
    exact dvStep_foldl_firstMax [(faceDot q 0, faceVal 0)]
      [(faceDot q 2, faceVal 2), (faceDot q 3, faceVal 3),
       (faceDot q 4, faceVal 4), (faceDot q 5, faceVal 5)]
      (faceDot q 1) (faceVal 1)
      (by
        intro p hp
        simp only [List.mem_cons, List.not_mem_nil, or_false] at hp
        rcases hp with rfl
        exact hstrict 0 (by decide))
      (by
        intro p hp
        simp only [List.mem_cons, List.not_mem_nil, or_false] at hp
        rcases hp with rfl | rfl | rfl | rfl
        · exact hmax 2
        · exact hmax 3
        · exact hmax 4
        · exact hmax 5)
  · rw [dv_eq_fold_dots]
    exact dvStep_foldl_firstMax
      [(faceDot q 0, faceVal 0), (faceDot q 1, faceVal 1)]
      [(faceDot q 3, faceVal 3), (faceDot q 4, faceVal 4),
       (faceDot q 5, faceVal 5)]
      (faceDot q 2) (faceVal 2)
      (by
        intro p hp
        simp only [List.mem_cons, List.not_mem_nil, or_false] at hp
        rcases hp with rfl | rfl
        · exact hstrict 0 (by decide)
        · exact hstrict 1 (by decide))
      (by
        intro p hp
        simp only [List.mem_cons, List.not_mem_nil, or_false] at hp
        rcases hp with rfl | rfl | rfl
        · exact hmax 3
        · exact hmax 4
        · exact hmax 5)
  · rw [dv_eq_fold_dots]
    exact dvStep_foldl_firstMax
      [(faceDot q 0, faceVal 0), (faceDot q 1, faceVal 1),
       (faceDot q 2, faceVal 2)]
      [(faceDot q 4, faceVal 4), (faceDot q 5, faceVal 5)]
      (faceDot q 3) (faceVal 3)
      (by
        intro p hp
        simp only [List.mem_cons, List.not_mem_nil, or_false] at hp
        rcases hp with rfl | rfl | rfl
        · exact hstrict 0 (by decide)
        · exact hstrict 1 (by decide)
        · exact hstrict 2 (by decide))
      (by
        intro p hp
        simp only [List.mem_cons, List.not_mem_nil, or_false] at hp
        rcases hp with rfl | rfl
        · exact hmax 4
        · exact hmax 5)
  · rw [dv_eq_fold_dots]
    exact dvStep_foldl_firstMax
      [(faceDot q 0, faceVal 0), (faceDot q 1, faceVal 1),
       (faceDot q 2, faceVal 2), (faceDot q 3, faceVal 3)]
      [(faceDot q 5, faceVal 5)]
      (faceDot q 4) (faceVal 4)
      (by
        intro p hp
        simp only [List.mem_cons, List.not_mem_nil, or_false] at hp
        rcases hp with rfl | rfl | rfl | rfl
        · exact hstrict 0 (by decide)
        · exact hstrict 1 (by decide)
        · exact hstrict 2 (by decide)
        · exact hstrict 3 (by decide))
      (by
        intro p hp
        simp only [List.mem_cons, List.not_mem_nil, or_false] at hp
        rcases hp with rfl
        exact hmax 5)
  · rw [dv_eq_fold_dots]
    exact dvStep_foldl_firstMax
      [(faceDot q 0, faceVal 0), (faceDot q 1, faceVal 1),
       (faceDot q 2, faceVal 2), (faceDot q 3, faceVal 3),
       (faceDot q 4, faceVal 4)]
      []
      (faceDot q 5) (faceVal 5)
      (by
        intro p hp
        simp only [List.mem_cons, List.not_mem_nil, or_false] at hp
        rcases hp with rfl | rfl | rfl | rfl | rfl
        · exact hstrict 0 (by decide)
        · exact hstrict 1 (by decide)
        · exact hstrict 2 (by decide)
        · exact hstrict 3 (by decide)
        · exact hstrict 4 (by decide))
      (by intro p hp; exact absurd hp (List.not_mem_nil p))

/-- Rotating two vectors by the same quaternion scales their dot product
by the square of the quaternion's squared norm; in particular a unit
quaternion preserves dot products. -/
theorem vmult_dot_vmult (q : Quat) (v w : Vec3) :
    (q.vmult v).dot (q.vmult w) = q.sumSq ^ 2 * v.dot w := by
  simp only [Quat.vmult, Vec3.dot, Quat.sumSq]
  ring

/-- A unit quaternion that carries face direction `i` to world-up makes
`determineDiceValue` return the value pinned to slot `i`. -/
theorem dv_canonical (q : Quat) (i : Fin 6) (hq : q.sumSq = 1)
    (hup : q.vmult (faceDir i) = upVector) :
    determineDiceValue q = faceVal i := by
  have hself : faceDot q i = 1 := by
    rw [faceDot, hup]
    simp [Vec3.dot, upVector]
  have hother : ∀ j : Fin 6, j ≠ i → faceDot q j < faceDot q i := by
    intro j hj
    have h1 : faceDot q j = q.sumSq ^ 2 * (faceDir j).dot (faceDir i) := by
      rw [faceDot, ← hup, vmult_dot_vmult]
    have h2 : (faceDir j).dot (faceDir i) ≤ 0 := by
      fin_cases j <;> fin_cases i <;>
        simp_all [faceDir, Vec3.dot]
    rw [h1, hself, hq]
    nlinarith [h2]
  refine dv_firstMax q i (fun j => ?_) (fun j hji => hother j (ne_of_lt hji))
  rcases eq_or_ne j i with rfl | h
  · exact le_refl _
  · exact (hother j h).le

/-- For any real quaternion the loop of `determineDiceValue` fires at
least once (every dot product exceeds `-Infinity`), so the result is one
of the six table values. -/
theorem dv_mem (q : Quat) :
    determineDiceValue q ∈ Finset.Icc 1 6 := by
  rw [dv_eq_fold_dots, List.foldl_cons]
  have h0 : dvStep ((none : Option ℝ), 0) (faceDot q 0, faceVal 0) =
      (some (faceDot q 0), faceVal 0) := rfl
  rw [h0]
  rcases dvStep_foldl_snd
      [(faceDot q 1, faceVal 1), (faceDot q 2, faceVal 2),
       (faceDot q 3, faceVal 3), (faceDot q 4, faceVal 4),
       (faceDot q 5, faceVal 5)]
      (some (faceDot q 0), faceVal 0) with h | h
  · rw [h]
    exact (by decide : faceVal 0 ∈ Finset.Icc 1 6)
  · simp only [List.map_cons, List.map_nil, List.mem_cons,
      List.not_mem_nil, or_false] at h
    rcases h with h | h | h | h | h <;> rw [h] <;> decide

/-- C1: for every die body whose orientation is a unit quaternion,
`determineDiceValue` returns exactly one value in `{1, ..., 6}`; a
(canonical axis-aligned) orientation carrying local face direction `i`
to world-up yields exactly the value pinned to that slot
(+Y→1, −Y→6, +X→3, −X→4, +Z→2, −Z→5); and when several face vectors
attain the maximal dot product with world-up, the value of the first
maximal one in the fixed enumeration order is returned. -/
theorem determineDiceValue_correct (q : Quat) (hq : q.sumSq = 1) :
    determineDiceValue q ∈ Finset.Icc 1 6 ∧
    (∀ i : Fin 6, q.vmult (faceDir i) = upVector →
      determineDiceValue q = faceVal i) ∧
    (∀ i : Fin 6,
      (∀ j : Fin 6, faceDot q j ≤ faceDot q i) →
      (∀ j : Fin 6, j < i → faceDot q j < faceDot q i) →
      determineDiceValue q = faceVal i) :=
  ⟨dv_mem q, fun i => dv_canonical q i hq, fun i => dv_firstMax q i⟩

/-- Witness for C1 at the identity orientation. -/
theorem determineDiceValue_correct_witness :
    Quat.sumSq ⟨0, 0, 0, 1⟩ = 1 ∧
    (determineDiceValue ⟨0, 0, 0, 1⟩ ∈ Finset.Icc 1 6 ∧
      (∀ i : Fin 6, Quat.vmult ⟨0, 0, 0, 1⟩ (faceDir i) = upVector →
        determineDiceValue ⟨0, 0, 0, 1⟩ = faceVal i) ∧
      (∀ i : Fin 6,
        (∀ j : Fin 6, faceDot ⟨0, 0, 0, 1⟩ j ≤ faceDot ⟨0, 0, 0, 1⟩ i) →
        (∀ j : Fin 6, j < i → faceDot ⟨0, 0, 0, 1⟩ j < faceDot ⟨0, 0, 0, 1⟩ i) →
        determineDiceValue ⟨0, 0, 0, 1⟩ = faceVal i)) :=
  ⟨by norm_num [Quat.sumSq],
   determineDiceValue_correct ⟨0, 0, 0, 1⟩ (by norm_num [Quat.sumSq])⟩

theorem Vec3.neg_def (v : Vec3) : -v = ⟨-v.x, -v.y, -v.z⟩ := rfl

/-- C6: in the face-vector table of `determineDiceValue`, the two values
associated with each pair of opposite local axes sum to 7, and for every
pair of opposite canonical orientations of a die the two values the face
resolver returns sum to 7. -/
theorem opposite_faces_sum_seven :
    (∀ i : Fin 6,
      faceDir (oppFace i) = -faceDir i ∧ faceVal i + faceVal (oppFace i) = 7) ∧
    (∀ (q1 q2 : Quat) (i : Fin 6), q1.sumSq = 1 → q2.sumSq = 1 →
      q1.vmult (faceDir i) = upVector →
      q2.vmult (faceDir (oppFace i)) = upVector →
      determineDiceValue q1 + determineDiceValue q2 = 7) := by
  constructor
  · intro i
    refine ⟨?_, by fin_cases i <;> decide⟩
    fin_cases i <;>
      simp [faceDir, oppFace, Vec3.neg_def, Vec3.mk.injEq]
  · intro q1 q2 i hq1 hq2 h1 h2
    rw [dv_canonical q1 i hq1 h1, dv_canonical q2 (oppFace i) hq2 h2]
    fin_cases i <;> decide

/-- Witness for C6 at the identity orientation (+Y up, value 1) and the
half-turn about the local x-axis (−Y up, value 6). -/
theorem opposite_faces_sum_seven_witness :
    Quat.sumSq ⟨0, 0, 0, 1⟩ = 1 ∧ Quat.sumSq ⟨1, 0, 0, 0⟩ = 1 ∧
    Quat.vmult ⟨0, 0, 0, 1⟩ (faceDir 0) = upVector ∧
    Quat.vmult ⟨1, 0, 0, 0⟩ (faceDir (oppFace 0)) = upVector ∧
    determineDiceValue ⟨0, 0, 0, 1⟩ + determineDiceValue ⟨1, 0, 0, 0⟩ = 7 := by
  have ha : Quat.sumSq ⟨0, 0, 0, 1⟩ = 1 := by norm_num [Quat.sumSq]
  have hb : Quat.sumSq ⟨1, 0, 0, 0⟩ = 1 := by norm_num [Quat.sumSq]
  have hc : Quat.vmult ⟨0, 0, 0, 1⟩ (faceDir 0) = upVector := by
    simp [Quat.vmult, faceDir, upVector, Vec3.mk.injEq]
  have hd : Quat.vmult ⟨1, 0, 0, 0⟩ (faceDir (oppFace 0)) = upVector := by
    simp [Quat.vmult, faceDir, oppFace, upVector, Vec3.mk.injEq]
  exact ⟨ha, hb, hc, hd,
    opposite_faces_sum_seven.2 ⟨0, 0, 0, 1⟩ ⟨1, 0, 0, 0⟩ 0 ha hb hc hd⟩

/-!
### NaN analysis of the face resolver (claim C10)

Here a JavaScript float is modelled as `Option ℚ`: `none` is `NaN`,
`some a` an (idealised) finite value.  Arithmetic propagates `NaN`, and
every IEEE comparison involving `NaN` is false.
-/

/-- NaN-propagating addition. -/
def nadd : Option ℚ → Option ℚ → Option ℚ
  | some a, some b => some (a + b)
  | _, _ => none

/-- NaN-propagating subtraction. -/
def nsub : Option ℚ → Option ℚ → Option ℚ
  | some a, some b => some (a - b)
  | _, _ => none

/-- NaN-propagating multiplication. -/
def nmul : Option ℚ → Option ℚ → Option ℚ
  | some a, some b => some (a * b)
  | _, _ => none

/-- NaN-propagating negation. -/
def nneg : Option ℚ → Option ℚ
  | some a => some (-a)
  | none => none

/-- `CANNON.Vec3` with possibly-NaN components. -/
structure NVec3 where
  x : Option ℚ
  y : Option ℚ
  z : Option ℚ

/-- `CANNON.Quaternion` with possibly-NaN components. -/
structure NQuat where
  x : Option ℚ
  y : Option ℚ
  z : Option ℚ
  w : Option ℚ

/-- `CANNON.Quaternion.vmult` in the NaN model (same formula as
`Quat.vmult`). -/
def NQuat.vmult (q : NQuat) (v : NVec3) : NVec3 :=
  let ix := nsub (nadd (nmul q.w v.x) (nmul q.y v.z)) (nmul q.z v.y)
  let iy := nsub (nadd (nmul q.w v.y) (nmul q.z v.x)) (nmul q.x v.z)
  let iz := nsub (nadd (nmul q.w v.z) (nmul q.x v.y)) (nmul q.y v.x)
  let iw := nsub (nsub (nmul (nneg q.x) v.x) (nmul q.y v.y)) (nmul q.z v.z)
  { x := nsub (nadd (nadd (nmul ix q.w) (nmul iw (nneg q.x)))
          (nmul iy (nneg q.z))) (nmul iz (nneg q.y))
    y := nsub (nadd (nadd (nmul iy q.w) (nmul iw (nneg q.y)))
          (nmul iz (nneg q.x))) (nmul ix (nneg q.z))
    z := nsub (nadd (nadd (nmul iz q.w) (nmul iw (nneg q.z)))
          (nmul ix (nneg q.y))) (nmul iy (nneg q.x)) }

/-- `CANNON.Vec3.dot` in the NaN model. -/
def NVec3.dot (a b : NVec3) : Option ℚ :=
  nadd (nadd (nmul a.x b.x) (nmul a.y b.y)) (nmul a.z b.z)

/-- The loop body of `determineDiceValue` in the NaN model.  The state's
first component is `maxDot` (`none` = the initial `-Infinity`), `p.1`
the possibly-NaN dot product of the current face.  `dot > maxDot` is
false whenever `dot` is NaN, true whenever a finite `dot` meets
`-Infinity`, and the usual strict comparison otherwise. -/
def ndvStep (st : Option ℚ × ℕ) (p : Option ℚ × ℕ) : Option ℚ × ℕ :=
  match p.1 with
  | none => st
  | some d =>
    match st.1 with
    | none => (some d, p.2)
    | some m => if m < d then (some d, p.2) else st

/-- World-up in the NaN model. -/
def nUpVector : NVec3 := ⟨some 0, some 1, some 0⟩

/-- The face-vector table in the NaN model. -/
def nFaceVectors : List (NVec3 × ℕ) :=
  [(⟨some 0, some 1, some 0⟩, 1), (⟨some 0, some (-1), some 0⟩, 6),
   (⟨some 1, some 0, some 0⟩, 3), (⟨some (-1), some 0, some 0⟩, 4),
   (⟨some 0, some 0, some 1⟩, 2), (⟨some 0, some 0, some (-1)⟩, 5)]

/-- `determineDiceValue` in the NaN model: `value` starts at `0` and
`maxDot` at `-Infinity`, replaced only on a strict comparison. -/
def determineDiceValueN (q : NQuat) : ℕ :=
  (nFaceVectors.foldl
    (fun st fv => ndvStep st ((q.vmult fv.1).dot nUpVector, fv.2))
    (none, 0)).2

/-- One NaN-model step keeps the old value or takes the current face's. -/
theorem ndvStep_snd (st : Option ℚ × ℕ) (p : Option ℚ × ℕ) :
    (ndvStep st p).2 = p.2 ∨ (ndvStep st p).2 = st.2 := by
  rcases p with ⟨d, v⟩
  rcases d with _ | d
  · right; rfl
  · rcases st with ⟨m, v0⟩
    rcases m with _ | m
    · left; rfl
    · by_cases h : m < d <;> simp [ndvStep, h]

/-- The NaN-model fold returns the initial value or one of the visited
face values. -/
theorem ndvStep_foldl_snd (l : List (Option ℚ × ℕ)) :
    ∀ st : Option ℚ × ℕ,
      (l.foldl ndvStep st).2 = st.2 ∨ (l.foldl ndvStep st).2 ∈ l.map Prod.snd := by
  induction l with
  | nil => exact fun st => Or.inl rfl
  | cons p t ih =>
      intro st
      rw [List.foldl_cons]
      rcases ih (ndvStep st p) with h | h
      · rcases ndvStep_snd st p with h2 | h2
        · right; rw [h, h2]; simp
        · left; rw [h, h2]
      · right; simp [h]

/-- C10: `determineDiceValue` initialises `value` to `0` and `maxDot` to
`-Infinity` and replaces them only on a strict comparison, so a
quaternion with a NaN component (making every dot product NaN) yields
`0`, outside `{1..6}`; for every quaternion with finite components the
`0` branch is unreachable and the result is one of the six table
values. -/
theorem determineDiceValueN_nan_vs_finite :
    (determineDiceValueN ⟨none, some 0, some 0, some 1⟩ = 0 ∧
      0 ∉ Finset.Icc 1 6) ∧
    (∀ q : NQuat, q.x ≠ none → q.y ≠ none → q.z ≠ none → q.w ≠ none →
      determineDiceValueN q ∈ Finset.Icc 1 6) := by
  refine ⟨⟨rfl, by decide⟩, ?_⟩
  intro q hx hy hz hw
  obtain ⟨a, ha⟩ := Option.ne_none_iff_exists'.mp hx
  obtain ⟨b, hb⟩ := Option.ne_none_iff_exists'.mp hy
  obtain ⟨c, hc⟩ := Option.ne_none_iff_exists'.mp hz
  obtain ⟨d, hd⟩ := Option.ne_none_iff_exists'.mp hw
  rcases q with ⟨qx, qy, qz, qw⟩
  simp only at ha hb hc hd
  subst ha hb hc hd
  have hfold : determineDiceValueN ⟨some a, some b, some c, some d⟩ =
      (List.foldl ndvStep
        (((⟨some a, some b, some c, some d⟩ : NQuat).vmult
          ⟨some 0, some 1, some 0⟩).dot nUpVector, 1)
        [(((⟨some a, some b, some c, some d⟩ : NQuat).vmult
            ⟨some 0, some (-1), some 0⟩).dot nUpVector, 6),
         (((⟨some a, some b, some c, some d⟩ : NQuat).vmult
            ⟨some 1, some 0, some 0⟩).dot nUpVector, 3),
         (((⟨some a, some b, some c, some d⟩ : NQuat).vmult
            ⟨some (-1), some 0, some 0⟩).dot nUpVector, 4),
         (((⟨some a, some b, some c, some d⟩ : NQuat).vmult
            ⟨some 0, some 0, some 1⟩).dot nUpVector, 2),
         (((⟨some a, some b, some c, some d⟩ : NQuat).vmult
            ⟨some 0, some 0, some (-1)⟩).dot nUpVector, 5)]).2 := rfl
  rw [hfold]
  rcases ndvStep_foldl_snd
      [(((⟨some a, some b, some c, some d⟩ : NQuat).vmult
          ⟨some 0, some (-1), some 0⟩).dot nUpVector, 6),
       (((⟨some a, some b, some c, some d⟩ : NQuat).vmult
          ⟨some 1, some 0, some 0⟩).dot nUpVector, 3),
       (((⟨some a, some b, some c, some d⟩ : NQuat).vmult
          ⟨some (-1), some 0, some 0⟩).dot nUpVector, 4),
       (((⟨some a, some b, some c, some d⟩ : NQuat).vmult
          ⟨some 0, some 0, some 1⟩).dot nUpVector, 2),
       (((⟨some a, some b, some c, some d⟩ : NQuat).vmult
          ⟨some 0, some 0, some (-1)⟩).dot nUpVector, 5)]
      (((⟨some a, some b, some c, some d⟩ : NQuat).vmult
        ⟨some 0, some 1, some 0⟩).dot nUpVector, 1) with h | h
  · rw [h]
    exact (by decide : (1 : ℕ) ∈ Finset.Icc 1 6)
  · simp only [List.map_cons, List.map_nil, List.mem_cons,
      List.not_mem_nil, or_false] at h
    rcases h with h | h | h | h | h <;> rw [h] <;> decide

/-- Witness for C10 at an all-finite quaternion. -/
theorem determineDiceValueN_nan_vs_finite_witness :
    ((some 1 : Option ℚ) ≠ none ∧ (some 0 : Option ℚ) ≠ none) ∧
    determineDiceValueN ⟨some 0, some 0, some 0, some 1⟩ ∈ Finset.Icc 1 6 :=
  ⟨⟨by decide, by decide⟩,
   determineDiceValueN_nan_vs_finite.2 ⟨some 0, some 0, some 0, some 1⟩
     (by decide) (by decide) (by decide) (by decide)⟩

/-!
### The roll controller state machine

`serverAnimate`, the `throwDice` handler and the module-level mutable
state (`diceBodies`, `serverRolling`, `animationIntervalId`).  The
physics step `world.step(1/60, dt, 3)` is abstracted as an arbitrary
function `phys` on the dice bodies (the engine mutates the bodies in
place, so the body count never changes); `lastTime`/`dt` exist only to
feed it and are absorbed into the abstraction.  Timer handles returned
by `setInterval` are modelled as natural numbers, `null` as `none`. -/

/-- `numDice = 5`. -/
def numDice : ℕ := 5

/-- `fieldRadius = 2.5`. -/
noncomputable def fieldRadius : ℝ := 2.5

/-- `diceSize = 0.5`. -/
noncomputable def diceSize : ℝ := 0.5

/-- `diceHalfExtents = diceSize / 2`. -/
noncomputable def diceHalfExtents : ℝ := diceSize / 2

/-- The mutable state of one die's `CANNON.Body`. -/
structure Body where
  position : Vec3
  quaternion : Quat
  velocity : Vec3
  angularVelocity : Vec3

/-- One entry of a `diceStateUpdate` payload:
`{position: {x,y,z}, quaternion: {x,y,z,w}}`. -/
structure Snap where
  position : Vec3
  quaternion : Quat

/-- Events the loop emits to the namespace. -/
inductive SEvent where
  | diceStateUpdate (snapshot : List Snap)
  | diceResult (individual : List ℕ) (total : ℕ)

/-- Recogniser for `diceResult` events. -/
def SEvent.isResult : SEvent → Bool
  | SEvent.diceResult _ _ => true
  | _ => false

/-- The module-level server state: the five dice bodies, the
`serverRolling` flag, and the `animationIntervalId` timer handle. -/
structure ServerState where
  dice : Fin numDice → Body
  serverRolling : Bool
  animationIntervalId : Option ℕ

/-- The settle decision computed by the loop inside `serverAnimate`:
`allStopped` starts `true` and is falsified as soon as one die has
`body.velocity.length() > 0.05 || body.angularVelocity.length() > 0.05`. -/
def allStopped (dice : Fin numDice → Body) : Prop :=
  ∀ i : Fin numDice,
    ¬((dice i).velocity.length > 0.05 ∨ (dice i).angularVelocity.length > 0.05)

/-- The `diceStates` array `serverAnimate` broadcasts: position and
quaternion of every body. -/
def snapshotOf (dice : Fin numDice → Body) : List Snap :=
  (List.finRange numDice).map fun i => ⟨(dice i).position, (dice i).quaternion⟩

/-- The per-die face values collected by `serverAnimate` after
settlement (`determineDiceValue(diceBodies[i])`, in index order). -/
noncomputable def rollValues (dice : Fin numDice → Body) : List ℕ :=
  (List.finRange numDice).map fun i => determineDiceValue (dice i).quaternion

open Classical in
/-- `serverAnimate(io)`: advance the physics (abstracted `phys`),
broadcast a `diceStateUpdate` snapshot, and, when rolling and all dice
are stopped, clear the rolling flag, cancel the interval, and emit a
`diceResult` with the sorted values and their total.  The JavaScript
in-place `results.sort((a, b) => a - b)` is modelled by a comparison
sort; the total is accumulated over the unsorted values. -/
noncomputable def serverAnimate
    (phys : (Fin numDice → Body) → Fin numDice → Body)
    (s : ServerState) : ServerState × List SEvent :=
  let dice := phys s.dice
  if s.serverRolling then
    if allStopped dice then
      let results := rollValues dice
      let total := results.sum
      let sorted := List.insertionSort (fun a b => a ≤ b) results
      (⟨dice, false, none⟩,
        [SEvent.diceStateUpdate (snapshotOf dice), SEvent.diceResult sorted total])
    else
      ({ s with dice := dice }, [SEvent.diceStateUpdate (snapshotOf dice)])
  else
    ({ s with dice := dice }, [SEvent.diceStateUpdate (snapshotOf dice)])

/-- Run a sequence of ticks (one abstract physics step per tick),
collecting all emitted events. -/
noncomputable def runTicks :
    List ((Fin numDice → Body) → Fin numDice → Body) → ServerState →
      ServerState × List SEvent
  | [], s => (s, [])
  | p :: ps, s =>
      let r1 := serverAnimate p s
      let r2 := runTicks ps r1.1
      (r2.1, r1.2 ++ r2.2)

/-- The body reset an accepted `throwDice` applies to die `i`: position
set to the row-spread start, orientation to a random normalised
quaternion, velocities zeroed and then set to the forward-and-upward
throw vector and the random spin.  `r (12*i + k)` is the k-th
`Math.random()` draw made for die `i`; the source draws, in order:
startY, startZ, the four quaternion components, velocityY, velocityZ,
velocityX, and the three angular-velocity components. -/
noncomputable def throwBody (r : ℕ → ℝ) (i : Fin numDice) : Body :=
  let k := 12 * i.val
  let startX := ((i.val : ℝ) - ((numDice : ℝ) - 1) / 2) * diceSize * 1.5
  let startY := diceHalfExtents + 0.5 + r k
  let startZ := (r (k + 1) - 0.5) * (fieldRadius * 0.5)
  let q0 : Quat :=
    ⟨r (k + 2) - 0.5, r (k + 3) - 0.5, r (k + 4) - 0.5, r (k + 5) - 0.5⟩
  let b0 : Body := ⟨⟨startX, startY, startZ⟩, q0.normalize, ⟨0, 0, 0⟩, ⟨0, 0, 0⟩⟩
  let velocityY := 4 + r (k + 6) * 3
  let velocityZ := -9 - r (k + 7) * 4
  let velocityX := (r (k + 8) - 0.5) * 3
  { b0 with
      velocity := ⟨velocityX, velocityY, velocityZ⟩
      angularVelocity :=
        ⟨15 + r (k + 9) * 10, 15 + r (k + 10) * 10, 15 + r (k + 11) * 10⟩ }

/-- The `throwDice` handler: if `serverRolling` is set the request is
silently dropped (plain `return`); otherwise the flag is set, every die
body is reset via `throwBody`, and the animation interval is started
only if no interval handle exists (`if (!animationIntervalId)`), the new
handle being `fresh`. -/
noncomputable def throwDice (r : ℕ → ℝ) (fresh : ℕ) (s : ServerState) :
    ServerState :=
  if s.serverRolling then s
  else
    { dice := fun i => throwBody r i
      serverRolling := true
      animationIntervalId :=
        match s.animationIntervalId with
        | some t => some t
        | none => some fresh }

/-- The rest pose `initPhysics` gives every die at process start. -/
noncomputable def initBody : Body :=
  ⟨⟨0, diceHalfExtents, 0⟩, ⟨0, 0, 0, 1⟩, ⟨0, 0, 0⟩, ⟨0, 0, 0⟩⟩

/-- The idle state at process start: dice at rest pose, not rolling, no
interval handle. -/
noncomputable def initialState : ServerState := ⟨fun _ => initBody, false, none⟩

/-- A die with zero velocities is not "moving". -/
theorem allStopped_const_initBody : allStopped fun _ => initBody := by
  intro i
  simp [initBody, Vec3.length]
  norm_num

/-- Evaluation of `serverAnimate` when not rolling. -/
theorem serverAnimate_idle (phys : (Fin numDice → Body) → Fin numDice → Body)
    (s : ServerState) (hroll : s.serverRolling = false) :
    serverAnimate phys s =
      ({ s with dice := phys s.dice },
        [SEvent.diceStateUpdate (snapshotOf (phys s.dice))]) := by
  simp [serverAnimate, hroll]

/-- Evaluation of `serverAnimate` when rolling and not yet settled. -/
theorem serverAnimate_not_settled
    (phys : (Fin numDice → Body) → Fin numDice → Body)
    (s : ServerState) (hroll : s.serverRolling = true)
    (hstop : ¬ allStopped (phys s.dice)) :
    serverAnimate phys s =
      ({ s with dice := phys s.dice },
        [SEvent.diceStateUpdate (snapshotOf (phys s.dice))]) := by
  rw [serverAnimate]
  simp only [hroll, if_true]
  rw [if_neg hstop]

/-- Evaluation of `serverAnimate` at the settling tick. -/
theorem serverAnimate_settled
    (phys : (Fin numDice → Body) → Fin numDice → Body)
    (s : ServerState) (hroll : s.serverRolling = true)
    (hstop : allStopped (phys s.dice)) :
    serverAnimate phys s =
      (⟨phys s.dice, false, none⟩,
        [SEvent.diceStateUpdate (snapshotOf (phys s.dice)),
         SEvent.diceResult
           (List.insertionSort (fun a b => a ≤ b) (rollValues (phys s.dice)))
           (rollValues (phys s.dice)).sum]) := by
  rw [serverAnimate]
  simp only [hroll, if_true]
  rw [if_pos hstop]

/-- C2: the settle decision is true exactly when every one of the five
dice simultaneously has linear-velocity magnitude `≤ 0.05` and
angular-velocity magnitude `≤ 0.05` (so it is false as soon as one die
exceeds either threshold), and a die resting exactly at the threshold
counts as at rest: the moving test is strict `>`, so ties settle. -/
theorem settle_decision_spec :
    (∀ dice : Fin numDice → Body,
      allStopped dice ↔
        ∀ i : Fin numDice,
          (dice i).velocity.length ≤ 0.05 ∧
          (dice i).angularVelocity.length ≤ 0.05) ∧
    allStopped fun _ => ⟨⟨0, 0, 0⟩, ⟨0, 0, 0, 1⟩, ⟨0.05, 0, 0⟩, ⟨0, 0, 0⟩⟩ := by
  constructor
  · intro dice
    unfold allStopped
    constructor
    · intro h i
      have h2 := h i
      push_neg at h2
      exact h2
    · intro h i
      push_neg
      exact h i
  · intro i
    have hl : (Vec3.length ⟨0.05, 0, 0⟩ : ℝ) = 0.05 := by
      rw [Vec3.length]
      have h2 : ((0.05 : ℝ) * 0.05 + 0 * 0 + 0 * 0) = (0.05 : ℝ) ^ 2 := by
        norm_num
      rw [h2, Real.sqrt_sq (by norm_num : (0 : ℝ) ≤ 0.05)]
    push_neg
    refine ⟨?_, ?_⟩
    · rw [hl]
    · norm_num [Vec3.length]

/-- C3: a `throwDice` request arriving while a roll session is active is
silently ignored — the state (all body poses and velocities, the rolling
flag, the timer handle) is unchanged — and therefore two throws in
immediate succession are equivalent to one. -/
theorem throw_while_rolling_ignored :
    (∀ (r : ℕ → ℝ) (fresh : ℕ) (s : ServerState),
      s.serverRolling = true → throwDice r fresh s = s) ∧
    (∀ (r1 r2 : ℕ → ℝ) (f1 f2 : ℕ) (s : ServerState),
      throwDice r2 f2 (throwDice r1 f1 s) = throwDice r1 f1 s) := by
  have h1 : ∀ (r : ℕ → ℝ) (fresh : ℕ) (s : ServerState),
      s.serverRolling = true → throwDice r fresh s = s := by
    intro r fresh s h
    rw [throwDice, if_pos h]
  refine ⟨h1, ?_⟩
  intro r1 r2 f1 f2 s
  by_cases h : s.serverRolling = true
  · rw [h1 r1 f1 s h]
    exact h1 r2 f2 s h
  · have h2 : (throwDice r1 f1 s).serverRolling = true := by
      rw [throwDice, if_neg h]
    exact h1 r2 f2 _ h2

/-- A rolling state used as witness input. -/
noncomputable def rollingState : ServerState := ⟨fun _ => initBody, true, some 0⟩

/-- Witness for C3 at a concrete rolling state. -/
theorem throw_while_rolling_ignored_witness :
    rollingState.serverRolling = true ∧
    throwDice (fun _ => 0) 0 rollingState = rollingState :=
  ⟨rfl, throw_while_rolling_ignored.1 (fun _ => 0) 0 rollingState rfl⟩

/-- Unfolding equation for `runTicks` on a non-empty tick list. -/
theorem runTicks_cons (p : (Fin numDice → Body) → Fin numDice → Body)
    (ps : List ((Fin numDice → Body) → Fin numDice → Body)) (s : ServerState) :
    runTicks (p :: ps) s =
      ((runTicks ps (serverAnimate p s).1).1,
        (serverAnimate p s).2 ++ (runTicks ps (serverAnimate p s).1).2) :=
  rfl

/-- Ticks started from a non-rolling state keep the flag clear and never
emit a `diceResult`. -/
theorem runTicks_idle :
    ∀ (physs : List ((Fin numDice → Body) → Fin numDice → Body))
      (s : ServerState), s.serverRolling = false →
      (runTicks physs s).1.serverRolling = false ∧
      (runTicks physs s).2.countP SEvent.isResult = 0 := by
  intro physs
  induction physs with
  | nil => exact fun s h => ⟨h, rfl⟩
  | cons p ps ih =>
      intro s h
      have he := serverAnimate_idle p s h
      rw [runTicks_cons, he]
      have hs2 : ({ s with dice := p s.dice } : ServerState).serverRolling = false := h
      obtain ⟨ha, hb⟩ := ih _ hs2
      refine ⟨ha, ?_⟩
      rw [List.countP_append, hb]
      simp [SEvent.isResult]

/-- C9: a tick executed while no roll session is active still emits a
well-formed `diceStateUpdate` snapshot with the position and quaternion
of all five dice, emits no `diceResult`, and leaves the rolling flag and
the timer handle untouched. -/
theorem tick_when_idle (phys : (Fin numDice → Body) → Fin numDice → Body)
    (s : ServerState) (hroll : s.serverRolling = false) :
    serverAnimate phys s =
      ({ s with dice := phys s.dice },
        [SEvent.diceStateUpdate (snapshotOf (phys s.dice))]) ∧
    (snapshotOf (phys s.dice)).length = numDice ∧
    (∀ (i : Fin numDice) (h : i.val < (snapshotOf (phys s.dice)).length),
      (snapshotOf (phys s.dice)).get ⟨i.val, h⟩ =
        ⟨(phys s.dice i).position, (phys s.dice i).quaternion⟩) ∧
    (serverAnimate phys s).2.countP SEvent.isResult = 0 ∧
    (serverAnimate phys s).1.serverRolling = s.serverRolling ∧
    (serverAnimate phys s).1.animationIntervalId = s.animationIntervalId := by
  have he := serverAnimate_idle phys s hroll
  refine ⟨he, ?_, ?_, ?_, ?_, ?_⟩
  · simp [snapshotOf]
  · intro i h
    simp [snapshotOf]
  · rw [he]
    simp [SEvent.isResult]
  · rw [he, hroll]
  · rw [he]

/-- Witness for C9: one idle tick at the initial state. -/
theorem tick_when_idle_witness :
    initialState.serverRolling = false ∧
    (serverAnimate (fun d => d) initialState).2.countP SEvent.isResult = 0 ∧
    (serverAnimate (fun d => d) initialState).1.serverRolling =
      initialState.serverRolling :=
  ⟨rfl, (tick_when_idle (fun d => d) initialState rfl).2.2.2.1,
    (tick_when_idle (fun d => d) initialState rfl).2.2.2.2.1⟩

/-- C4: while a roll session is active, a tick that observes settlement
clears the rolling flag, cancels the interval, and emits `diceResult`
exactly once; ticks before settlement emit none, and after the settling
tick no further sequence of ticks emits another `diceResult`. -/
theorem diceResult_emitted_once
    (phys : (Fin numDice → Body) → Fin numDice → Body)
    (s : ServerState) (hroll : s.serverRolling = true) :
    (allStopped (phys s.dice) →
      (serverAnimate phys s).2.countP SEvent.isResult = 1 ∧
      (serverAnimate phys s).1.serverRolling = false ∧
      (serverAnimate phys s).1.animationIntervalId = none ∧
      ∀ physs, (runTicks physs (serverAnimate phys s).1).2.countP
        SEvent.isResult = 0) ∧
    (¬ allStopped (phys s.dice) →
      (serverAnimate phys s).2.countP SEvent.isResult = 0 ∧
      (serverAnimate phys s).1.serverRolling = true) := by
  constructor
  · intro hstop
    have he := serverAnimate_settled phys s hroll hstop
    rw [he]
    refine ⟨?_, rfl, rfl, ?_⟩
    · simp [List.countP_cons, SEvent.isResult]
    · intro physs
      exact (runTicks_idle physs _ rfl).2
  · intro hstop
    have he := serverAnimate_not_settled phys s hroll hstop
    rw [he]
    exact ⟨by simp [List.countP_cons, SEvent.isResult], hroll⟩

/-- Witness for C4: a settling tick at a rolling state whose dice are
already at rest. -/
theorem diceResult_emitted_once_witness :
    rollingState.serverRolling = true ∧
    allStopped ((fun d => d) rollingState.dice) ∧
    (serverAnimate (fun d => d) rollingState).2.countP SEvent.isResult = 1 ∧
    (serverAnimate (fun d => d) rollingState).1.serverRolling = false :=
  ⟨rfl, allStopped_const_initBody,
    ((diceResult_emitted_once (fun d => d) rollingState rfl).1
      allStopped_const_initBody).1,
    ((diceResult_emitted_once (fun d => d) rollingState rfl).1
      allStopped_const_initBody).2.1⟩

/-- C5: every emitted `diceResult` carries the five per-die face values
sorted ascending together with their sum (the total is accumulated over
the values before sorting, and sorting permutes them, so it equals the
sum of `individual`). -/
theorem rollResult_sorted_and_total
    (phys : (Fin numDice → Body) → Fin numDice → Body)
    (s : ServerState) (hroll : s.serverRolling = true)
    (hstop : allStopped (phys s.dice)) :
    (serverAnimate phys s).2 =
      [SEvent.diceStateUpdate (snapshotOf (phys s.dice)),
       SEvent.diceResult
         (List.insertionSort (· ≤ ·) (rollValues (phys s.dice)))
         (rollValues (phys s.dice)).sum] ∧
    List.Sorted (· ≤ ·)
      (List.insertionSort (· ≤ ·) (rollValues (phys s.dice))) ∧
    (rollValues (phys s.dice)).sum =
      (List.insertionSort (· ≤ ·) (rollValues (phys s.dice))).sum ∧
    (List.insertionSort (· ≤ ·) (rollValues (phys s.dice))).length = numDice ∧
    List.Perm (List.insertionSort (· ≤ ·) (rollValues (phys s.dice)))
      (rollValues (phys s.dice)) := by
  have he := serverAnimate_settled phys s hroll hstop
  refine ⟨by rw [he], List.sorted_insertionSort _ _, ?_, ?_,
    List.perm_insertionSort _ _⟩
  · exact ((List.perm_insertionSort (· ≤ ·) (rollValues (phys s.dice))).sum_eq).symm
  · rw [List.length_insertionSort]
    simp [rollValues]

/-- Witness for C5 at a rolling state with dice already at rest. -/
theorem rollResult_sorted_and_total_witness :
    rollingState.serverRolling = true ∧
    allStopped ((fun d => d) rollingState.dice) ∧
    List.Sorted (· ≤ ·)
      (List.insertionSort (· ≤ ·) (rollValues ((fun d => d) rollingState.dice))) :=
  ⟨rfl, allStopped_const_initBody,
    (rollResult_sorted_and_total (fun d => d) rollingState rfl
      allStopped_const_initBody).2.1⟩

/-- C8: starting the tick loop from an accepted throw is idempotent —
with a timer handle already present the handle is unchanged and no
second loop is created; with no handle exactly one loop is started. -/
theorem tickLoop_start_idempotent (r : ℕ → ℝ) (fresh : ℕ) (s : ServerState)
    (hroll : s.serverRolling = false) :
    (∀ t, s.animationIntervalId = some t →
      (throwDice r fresh s).animationIntervalId = some t) ∧
    (s.animationIntervalId = none →
      (throwDice r fresh s).animationIntervalId = some fresh) := by
  have hneg : ¬ s.serverRolling = true := by simp [hroll]
  constructor
  · intro t ht
    rw [throwDice, if_neg hneg]
    simp [ht]
  · intro ht
    rw [throwDice, if_neg hneg]
    simp [ht]

/-- An idle state that already owns a timer handle. -/
noncomputable def idleWithTimer : ServerState := ⟨fun _ => initBody, false, some 7⟩

/-- Witness for C8: a throw accepted while the timer handle 7 exists
keeps handle 7. -/
theorem tickLoop_start_idempotent_witness :
    idleWithTimer.serverRolling = false ∧
    idleWithTimer.animationIntervalId = some 7 ∧
    (throwDice (fun _ => 0) 3 idleWithTimer).animationIntervalId = some 7 :=
  ⟨rfl, rfl, (tickLoop_start_idempotent (fun _ => 0) 3 idleWithTimer rfl).1 7 rfl⟩

/-- Normalising a quaternion with nonzero squared norm yields a unit
quaternion. -/
theorem normalize_sumSq_of_ne_zero (q : Quat) (h : q.sumSq ≠ 0) :
    q.normalize.sumSq = 1 := by
  have h0 : (0 : ℝ) ≤ q.sumSq := by
    rw [Quat.sumSq]
    positivity
  have hS : q.x ^ 2 + q.y ^ 2 + q.z ^ 2 + q.w ^ 2 = q.sumSq := rfl
  have hlne : Real.sqrt (q.x ^ 2 + q.y ^ 2 + q.z ^ 2 + q.w ^ 2) ≠ 0 := by
    rw [hS, ne_eq, Real.sqrt_eq_zero h0]
    exact h
  simp only [Quat.normalize]
  rw [if_neg hlne]
  rw [Quat.sumSq]
  simp only
  field_simp
  exact div_self (by rw [hS]; exact h)

/-- Normalising a quaternion of squared norm zero (the zero quaternion)
yields the zero quaternion, not a unit one. -/
theorem normalize_of_sumSq_zero (q : Quat) (h : q.sumSq = 0) :
    q.normalize = ⟨0, 0, 0, 0⟩ := by
  have hS : q.x ^ 2 + q.y ^ 2 + q.z ^ 2 + q.w ^ 2 = 0 := h
  simp only [Quat.normalize]
  rw [hS, Real.sqrt_zero, if_pos rfl]

/-- Evaluation of `throwDice` when no session is active. -/
theorem throwDice_accepted_eval (r : ℕ → ℝ) (fresh : ℕ) (s : ServerState)
    (hroll : s.serverRolling = false) :
    throwDice r fresh s =
      { dice := fun i => throwBody r i
        serverRolling := true
        animationIntervalId :=
          match s.animationIntervalId with
          | some t => some t
          | none => some fresh } := by
  rw [throwDice, if_neg (by simp [hroll])]

/-- C7 (amended): an accepted throw marks the session rolling and gives
every die the row-spread position (x = (i − 2)·0.75, y ∈ [0.75, 1.75),
z ∈ [−0.625, 0.625)), the normalised sampled orientation — a unit
quaternion whenever the four sampled components are not all zero, the
zero quaternion otherwise — a forward-and-upward velocity with
vy ∈ [4, 7), vz ∈ (−13, −9], vx ∈ [−1.5, 1.5), and angular-velocity
components in [15, 25). -/
theorem throwDice_accepted_ranges (r : ℕ → ℝ) (fresh : ℕ) (s : ServerState)
    (hroll : s.serverRolling = false) (hr : ∀ n, 0 ≤ r n ∧ r n < 1) :
    (throwDice r fresh s).serverRolling = true ∧
    ∀ i : Fin numDice,
      ((throwDice r fresh s).dice i).position.x = ((i.val : ℝ) - 2) * 0.75 ∧
      (0.75 ≤ ((throwDice r fresh s).dice i).position.y ∧
        ((throwDice r fresh s).dice i).position.y < 1.75) ∧
      (-0.625 ≤ ((throwDice r fresh s).dice i).position.z ∧
        ((throwDice r fresh s).dice i).position.z < 0.625) ∧
      ((Quat.sumSq ⟨r (12 * i.val + 2) - 0.5, r (12 * i.val + 3) - 0.5,
          r (12 * i.val + 4) - 0.5, r (12 * i.val + 5) - 0.5⟩ ≠ 0 →
        Quat.sumSq ((throwDice r fresh s).dice i).quaternion = 1) ∧
       (Quat.sumSq ⟨r (12 * i.val + 2) - 0.5, r (12 * i.val + 3) - 0.5,
          r (12 * i.val + 4) - 0.5, r (12 * i.val + 5) - 0.5⟩ = 0 →
        ((throwDice r fresh s).dice i).quaternion = ⟨0, 0, 0, 0⟩)) ∧
      (4 ≤ ((throwDice r fresh s).dice i).velocity.y ∧
        ((throwDice r fresh s).dice i).velocity.y < 7) ∧
      (-13 < ((throwDice r fresh s).dice i).velocity.z ∧
        ((throwDice r fresh s).dice i).velocity.z ≤ -9) ∧
      (-1.5 ≤ ((throwDice r fresh s).dice i).velocity.x ∧
        ((throwDice r fresh s).dice i).velocity.x < 1.5) ∧
      (15 ≤ ((throwDice r fresh s).dice i).angularVelocity.x ∧
        ((throwDice r fresh s).dice i).angularVelocity.x < 25) ∧
      (15 ≤ ((throwDice r fresh s).dice i).angularVelocity.y ∧
        ((throwDice r fresh s).dice i).angularVelocity.y < 25) ∧
      (15 ≤ ((throwDice r fresh s).dice i).angularVelocity.z ∧
        ((throwDice r fresh s).dice i).angularVelocity.z < 25) := by
  rw [throwDice_accepted_eval r fresh s hroll]
  refine ⟨rfl, ?_⟩
  intro i
  simp only [throwBody]
  obtain ⟨h0a, h0b⟩ := hr (12 * i.val)
  obtain ⟨h1a, h1b⟩ := hr (12 * i.val + 1)
  obtain ⟨h6a, h6b⟩ := hr (12 * i.val + 6)
  obtain ⟨h7a, h7b⟩ := hr (12 * i.val + 7)
  obtain ⟨h8a, h8b⟩ := hr (12 * i.val + 8)
  obtain ⟨h9a, h9b⟩ := hr (12 * i.val + 9)
  obtain ⟨h10a, h10b⟩ := hr (12 * i.val + 10)
  obtain ⟨h11a, h11b⟩ := hr (12 * i.val + 11)
  refine ⟨?_, ⟨?_, ?_⟩, ⟨?_, ?_⟩,
    ⟨fun h => normalize_sumSq_of_ne_zero _ h,
     fun h => normalize_of_sumSq_zero _ h⟩,
    ⟨?_, ?_⟩, ⟨?_, ?_⟩, ⟨?_, ?_⟩, ⟨?_, ?_⟩, ⟨?_, ?_⟩, ⟨?_, ?_⟩⟩
  · simp only [numDice, diceSize]
    norm_num
    ring
  · simp only [diceHalfExtents, diceSize]
    norm_num
    linarith
  · simp only [diceHalfExtents, diceSize]
    norm_num
    linarith
  · simp only [fieldRadius]
    norm_num
    linarith
  · simp only [fieldRadius]
    norm_num
    linarith
  · linarith
  · linarith
  · linarith
  · linarith
  · linarith
  · linarith
  · linarith
  · linarith
  · linarith
  · linarith
  · linarith
  · linarith

/-- Witness for C7 at the initial state with the all-zero draw stream. -/
theorem throwDice_accepted_ranges_witness :
    initialState.serverRolling = false ∧
    (∀ n : ℕ, 0 ≤ (fun _ : ℕ => (0 : ℝ)) n ∧ (fun _ : ℕ => (0 : ℝ)) n < 1) ∧
    (throwDice (fun _ => 0) 0 initialState).serverRolling = true :=
  ⟨rfl, fun _ => by norm_num,
    (throwDice_accepted_ranges (fun _ => 0) 0 initialState rfl
      (fun _ => by norm_num)).1⟩

/-- Claim C7 exactly as stated: it asserts, in particular, that every
accepted throw gives every die a *unit* orientation quaternion and an
x-velocity in the *open* interval (−1.5, 1.5). -/
def throwClaimAsStated : Prop :=
  ∀ (r : ℕ → ℝ) (fresh : ℕ) (s : ServerState),
    s.serverRolling = false → (∀ n, 0 ≤ r n ∧ r n < 1) →
    (throwDice r fresh s).serverRolling = true ∧
    ∀ i : Fin numDice,
      ((throwDice r fresh s).dice i).position.x = ((i.val : ℝ) - 2) * 0.75 ∧
      (0.75 ≤ ((throwDice r fresh s).dice i).position.y ∧
        ((throwDice r fresh s).dice i).position.y < 1.75) ∧
      (-0.625 ≤ ((throwDice r fresh s).dice i).position.z ∧
        ((throwDice r fresh s).dice i).position.z < 0.625) ∧
      Quat.sumSq ((throwDice r fresh s).dice i).quaternion = 1 ∧
      (4 ≤ ((throwDice r fresh s).dice i).velocity.y ∧
        ((throwDice r fresh s).dice i).velocity.y < 7) ∧
      (-13 < ((throwDice r fresh s).dice i).velocity.z ∧
        ((throwDice r fresh s).dice i).velocity.z ≤ -9) ∧
      (-1.5 < ((throwDice r fresh s).dice i).velocity.x ∧
        ((throwDice r fresh s).dice i).velocity.x < 1.5) ∧
      (15 ≤ ((throwDice r fresh s).dice i).angularVelocity.x ∧
        ((throwDice r fresh s).dice i).angularVelocity.x < 25) ∧
      (15 ≤ ((throwDice r fresh s).dice i).angularVelocity.y ∧
        ((throwDice r fresh s).dice i).angularVelocity.y < 25) ∧
      (15 ≤ ((throwDice r fresh s).dice i).angularVelocity.z ∧
        ((throwDice r fresh s).dice i).angularVelocity.z < 25)

/-- A legal draw stream (all values in `[0, 1)`) that draws exactly 0.5
for the four quaternion components of every die and 0 for every other
call. -/
noncomputable def ceDraws : ℕ → ℝ := fun n =>
  if n % 12 = 2 ∨ n % 12 = 3 ∨ n % 12 = 4 ∨ n % 12 = 5 then 0.5 else 0

theorem ceDraws_range : ∀ n, 0 ≤ ceDraws n ∧ ceDraws n < 1 := by
  intro n
  rw [ceDraws]
  split_ifs <;> norm_num

/-- The first die's index. -/
def die0 : Fin numDice := ⟨0, by norm_num [numDice]⟩

/-- Counterexample to C7 as stated: with the legal draw stream `ceDraws`
the first die's x-velocity is exactly −1.5 (not in the open interval)
and its orientation is the zero quaternion (not a unit quaternion). -/
theorem throwClaim_counterexample :
    ¬ throwClaimAsStated ∧
    ((throwDice ceDraws 0 initialState).dice die0).velocity.x = -1.5 ∧
    ((throwDice ceDraws 0 initialState).dice die0).quaternion = ⟨0, 0, 0, 0⟩ := by
  have hd : (throwDice ceDraws 0 initialState).dice die0 =
      throwBody ceDraws die0 := by
    rw [throwDice_accepted_eval ceDraws 0 initialState rfl]
  have hvx : ((throwDice ceDraws 0 initialState).dice die0).velocity.x = -1.5 := by
    rw [hd]
    simp only [throwBody]
    norm_num [ceDraws, show die0.val = 0 from rfl]
  have hq : ((throwDice ceDraws 0 initialState).dice die0).quaternion =
      ⟨0, 0, 0, 0⟩ := by
    rw [hd]
    simp only [throwBody]
    apply normalize_of_sumSq_zero
    norm_num [Quat.sumSq, ceDraws, show die0.val = 0 from rfl]
  refine ⟨?_, hvx, hq⟩
  intro hclaim
  obtain ⟨-, hdice⟩ := hclaim ceDraws 0 initialState rfl ceDraws_range
  obtain ⟨-, -, -, -, -, -, hvx2, -⟩ := hdice die0
  rw [hvx] at hvx2
  exact absurd hvx2.1 (by norm_num)

end DicePoker
